import Mathlib

/-!
Shallow embedding of src/filter.py (NbAiLab/norwegian_common_voice_text).

A sentence (a Python str) is modelled as a list of characters.  Python's
whitespace-driven primitives (str.strip, str.lstrip, str.rstrip, str.split
with no argument, str.split with a tab separator) are embedded as executable
functions on character lists.  Python's Unicode str.isupper is modelled on
the character set the program actually admits (its allow-list filter keeps
only ASCII letters and the Norwegian letters æøåÆØÅ): ASCII uppercase plus
the uppercase Norwegian letters.
-/

abbrev Sentence := List Char

/-- Python whitespace for str.strip and str.split with no argument. -/
def pyIsSpace (c : Char) : Bool :=
  c = ' ' || c = '\t' || c = '\n' || c = '\r' || c = '\x0b' || c = '\x0c'

/-- Python str.isupper for a single character, on the program's character set:
ASCII uppercase letters plus the Norwegian uppercase letters ÆØÅ. -/
def pyIsUpper (c : Char) : Bool :=
  ('A' ≤ c && c ≤ 'Z') || c = 'Æ' || c = 'Ø' || c = 'Å'

/-- Python str.isdigit restricted to the decimal digits. -/
def pyIsDigit (c : Char) : Bool := '0' ≤ c && c ≤ '9'

/-- Python str.lstrip with no argument. -/
def pyLStrip (s : List Char) : List Char := s.dropWhile pyIsSpace

/-- Python str.rstrip with no argument. -/
def pyRStrip (s : List Char) : List Char := (s.reverse.dropWhile pyIsSpace).reverse

/-- Python str.strip with no argument. -/
def pyStrip (s : List Char) : List Char := pyRStrip (pyLStrip s)

/-- Accumulator-driven worker for Python str.split with no argument: the
accumulator holds the characters of the token currently being read, reversed. -/
def splitWSAux : List Char → List Char → List (List Char)
  | [], acc => if acc.isEmpty then [] else [acc.reverse]
  | c :: rest, acc =>
    if pyIsSpace c then
      if acc.isEmpty then splitWSAux rest []
      else acc.reverse :: splitWSAux rest []
    else splitWSAux rest (c :: acc)

/-- Python str.split with no argument: splits on runs of whitespace and
produces no empty tokens. -/
def pySplitWS (s : List Char) : List (List Char) := splitWSAux s []

/-- Python line.split with a tab separator: splits at every tab and keeps
empty fields. -/
def splitTab : List Char → List (List Char)
  | [] => [[]]
  | c :: rest =>
    if c = '\t' then [] :: splitTab rest
    else
      match splitTab rest with
      | [] => [[c]]
      | t :: ts => (c :: t) :: ts

/-! ### The nine fast filters, translated from src/filter.py lines 25-80. -/

/-- The filter starts_with_capital: the first character after lstrip is uppercase. -/
def starts_with_capital (s : Sentence) : Bool :=
  match pyLStrip s with
  | [] => false
  | c :: _ => pyIsUpper c

/-- The filter has_no_parentheses: neither a left nor a right parenthesis occurs. -/
def has_no_parentheses (s : Sentence) : Bool :=
  !(s.contains '(') && !(s.contains ')')

/-- The filter ends_with_punctuation: after rstrip the string is nonempty and its last
character is a period or a question mark. -/
def ends_with_punctuation (s : Sentence) : Bool :=
  match (pyRStrip s).getLast? with
  | none => false
  | some c => c = '.' || c = '?'

/-- The filter only_one_sentence: after rstrip the string is nonempty, the number of
periods plus question marks is exactly one, and the last character is one. -/
def only_one_sentence (s : Sentence) : Bool :=
  let stripped := pyRStrip s
  match stripped.getLast? with
  | none => false
  | some c => (stripped.count '.' + stripped.count '?' == 1) && (c = '.' || c = '?')

/-- The filter has_no_numbers: no character is a decimal digit. -/
def has_no_numbers (s : Sentence) : Bool :=
  s.all (fun c => !pyIsDigit c)

/-- The allow-list of no_special_characters, read off the regular expression
in the source: ASCII letters, the Norwegian letters, whitespace, and the
punctuation set listed there. -/
def allowedChar (c : Char) : Bool :=
  ('a' ≤ c && c ≤ 'z') || ('A' ≤ c && c ≤ 'Z') ||
  c = 'æ' || c = 'ø' || c = 'å' || c = 'Æ' || c = 'Ø' || c = 'Å' ||
  pyIsSpace c ||
  c = ',' || c = '.' || c = '!' || c = '?' || c = '\'' || c = '’' ||
  c = ':' || c = ';' || c = '-'

/-- The filter no_special_characters: every character is in the allow-list. -/
def no_special_characters (s : Sentence) : Bool :=
  s.all allowedChar

/-- The effective word count of reading_time_filter: each whitespace token
of more than 10 characters counts as 2 words, every other token as 1. -/
def effective_word_count (s : Sentence) : ℕ :=
  ((pySplitWS s).map (fun w => if w.length > 10 then 2 else 1)).sum

/-- The filter reading_time_filter with its default arguments (wpm 100, bounds 2 and 7
seconds); the division is exact in ℚ, as it is for these operands in the
source's floating point. -/
def reading_time_filter (s : Sentence) : Bool :=
  let words_per_second : ℚ := 100 / 60
  let reading_time : ℚ := (effective_word_count s : ℚ) / words_per_second
  decide (2 ≤ reading_time ∧ reading_time ≤ 7)

/-- The filter max_word_count_filter with its default maximum of 14 words. -/
def max_word_count_filter (s : Sentence) : Bool :=
  (pySplitWS s).length ≤ 14

/-- Whether a token's first character is uppercase; an empty token has none. -/
def startsUpper (w : List Char) : Bool :=
  match w with
  | [] => false
  | c :: _ => pyIsUpper c

/-- The loop body of basic_proper_noun_filter over the tokens after the
first: Python indexes word[0], which raises IndexError on an empty token,
embedded here as none. -/
def checkTailWords : List (List Char) → Option Bool
  | [] => some true
  | [] :: _ => none
  | (c :: _) :: ws => if pyIsUpper c then some false else checkTailWords ws

/-- The filter basic_proper_noun_filter: rejects when any token after the first starts
with an uppercase character; none embeds the IndexError Python would raise
on an empty token (which in fact never occurs). -/
def basic_proper_noun_filter (s : Sentence) : Option Bool :=
  match pySplitWS s with
  | [] => some true
  | _ :: tail => checkTailWords tail

example : starts_with_capital "Hallo der.".data = true := by decide
example : effective_word_count "Hallo der.".data = 2 := by decide
example : effective_word_count "Dette er en fin dag.".data = 5 := by decide
example : has_no_parentheses [] = true := by decide
example : basic_proper_noun_filter "Dette er Oslo.".data = some false := by rfl

/-! ### The cascade, statistics and chunked writer of main (lines 95-226). -/

/-- The fast-filter cascade in its fixed order (source lines 125-135); the
last entry wraps the Option-valued proper-noun heuristic, whose error case
never fires. -/
def fastFilterList : List (Sentence → Bool) :=
  [starts_with_capital, has_no_parentheses, ends_with_punctuation,
   only_one_sentence, has_no_numbers, no_special_characters,
   reading_time_filter, max_word_count_filter,
   fun s => basic_proper_noun_filter s == some true]

/-- The fast filter at cascade position i (0-based). -/
def fastFilterAt (i : ℕ) : Sentence → Bool :=
  fastFilterList.getD i (fun _ => true)

/-- The short-circuit loop of the fast pass: the index of the first filter
that rejects the sentence, or none when all accept (source lines 164-169). -/
def runFastFilters : List (Sentence → Bool) → Sentence → Option ℕ
  | [], _ => none
  | f :: fs, s => if f s then (runFastFilters fs s).map (· + 1) else some 0

/-- State of the fast pass: the nine rejection counters in cascade order,
the survivor list, and total_lines. -/
structure FastResult where
  counts : List ℕ
  survivors : List Sentence
  total_lines : ℕ
deriving DecidableEq

/-- Line parsing of the fast pass (source lines 150-162): strip the line,
skip it when blank, split on tabs, skip it with fewer than two columns,
otherwise take the stripped second column. -/
def parseLine (line : List Char) : Option Sentence :=
  let l := pyStrip line
  if l.isEmpty then none
  else
    let parts := splitTab l
    if parts.length < 2 then none
    else some (pyStrip (parts.getD 1 []))

/-- One iteration of the fast pass loop (source lines 150-172). -/
def processLine (st : FastResult) (line : List Char) : FastResult :=
  match parseLine line with
  | none => st
  | some sentence =>
    match runFastFilters fastFilterList sentence with
    | some i =>
      { st with total_lines := st.total_lines + 1,
                counts := st.counts.set i (st.counts.getD i 0 + 1) }
    | none =>
      { st with total_lines := st.total_lines + 1,
                survivors := st.survivors ++ [sentence] }

/-- The fast pass over all input lines, from the zeroed statistics: one
zero counter per fast filter, in cascade order (source lines 137-144). -/
def fastPass (lines : List (List Char)) : FastResult :=
  lines.foldl processLine ⟨[0, 0, 0, 0, 0, 0, 0, 0, 0], [], 0⟩

/-- The sentences the fast pass extracts from the input: one per line that
is neither blank nor short of columns. -/
def extractedSentences (lines : List (List Char)) : List Sentence :=
  lines.filterMap parseLine

/-- One iteration of the linguistic pass (source lines 176-180): the
accumulator is the final_pass list and the proper_noun_filter counter. -/
def lingStep (pn : Sentence → Bool) (acc : List Sentence × ℕ) (s : Sentence) :
    List Sentence × ℕ :=
  if pn s then (acc.1 ++ [s], acc.2) else (acc.1, acc.2 + 1)

/-- The linguistic pass over the fast-pass survivors. -/
def lingPass (pn : Sentence → Bool) (survivors : List Sentence) :
    List Sentence × ℕ :=
  survivors.foldl (lingStep pn) ([], 0)

/-- The fixed source URL written in full mode (source line 183). -/
def source_url : String :=
  "https://www.nb.no/sprakbanken/ressurskatalog/oai-nb-no-sbr-80/"

/-- The fixed rationale written in full mode (source lines 184-188, the
three adjacent literals concatenated). -/
def additional_rationale : String :=
  "This is a CC0 licensed corpus cleared from newspaper text. The source sentences from a translation corpus is used.  It is released by Språkbanken."

/-- The fixed domain label written in full mode (source line 189). -/
def domain : String := "General"

/-- A full-mode output line (source lines 211-218): the sentence and four
further tab-separated fields — source URL, rationale, an empty field, and
the domain label. -/
def fullModeLine (s : Sentence) : List Char :=
  s ++ "\t".data ++ source_url.data ++ "\t".data ++ additional_rationale.data
    ++ "\t".data ++ "".data ++ "\t".data ++ domain.data ++ "\n".data

/-- A single-sentence-mode output line (source lines 203-206). -/
def singleModeLine (s : Sentence) : List Char := s ++ "\n".data

/-- The lines of one output chunk file, in the configured mode. -/
def writeChunk (single : Bool) (c : List Sentence) : List (List Char) :=
  if single then c.map singleModeLine else c.map fullModeLine

/-- The chunking loop of the writer (source lines 196-198): Python iterates
i over range of the length with step chunk_size and slices; here each
iteration takes one slice of at most n sentences and recurses on the rest.
The fuel argument, instantiated with the list length, bounds the number of
iterations so the recursion is structural; with 0 < n each iteration
consumes at least one element, so the fuel never runs out. -/
def chunkLoop : ℕ → ℕ → List Sentence → List (List Sentence)
  | 0, _, _ => []
  | _ + 1, _, [] => []
  | fuel + 1, n, x :: xs => (x :: xs).take n :: chunkLoop fuel n ((x :: xs).drop n)

/-- The chunks of the final accepted sequence, in order. -/
def chunkList (n : ℕ) (l : List Sentence) : List (List Sentence) :=
  chunkLoop l.length n l

/-- The configuration surface the core consumes: chunk_size and the
single_sentences toggle (source lines 99-100). -/
structure Config where
  chunk_size : ℕ
  single_sentences : Bool
deriving DecidableEq

/-- Everything a run produces: the statistics counters, the final accepted
sequence, and the chunk files' contents. -/
structure RunResult where
  counts : List ℕ
  pn_count : ℕ
  total_lines : ℕ
  final : List Sentence
  total_final : ℕ
  chunk_count : ℕ
  chunks : List (List (List Char))
deriving DecidableEq

/-- The whole pipeline (source lines 137-226): fast pass, linguistic pass
over the survivors, then the chunked writer; pn is the externally supplied
proper-noun capability (accept when no proper noun). -/
def runPipeline (pn : Sentence → Bool) (cfg : Config)
    (lines : List (List Char)) : RunResult :=
  let fr := fastPass lines
  let lp := lingPass pn fr.survivors
  let cs := chunkList cfg.chunk_size lp.1
  { counts := fr.counts, pn_count := lp.2, total_lines := fr.total_lines,
    final := lp.1, total_final := lp.1.length, chunk_count := cs.length,
    chunks := cs.map (writeChunk cfg.single_sentences) }

/-! ### Helper lemmas. -/

/-- The rational reading-time comparison of the source is equivalent to an
effective word count between 4 and 11: at 100 words per minute, n effective
words read in 3n/5 seconds, and 2 ≤ 3n/5 ≤ 7 over ℚ holds for a natural n
exactly when 4 ≤ n ≤ 11. -/
lemma reading_time_iff (s : Sentence) :
    reading_time_filter s = true ↔
      4 ≤ effective_word_count s ∧ effective_word_count s ≤ 11 := by
  unfold reading_time_filter
  rw [decide_eq_true_eq]
  have h : ((100 : ℚ) / 60) = 5 / 3 := by norm_num
  rw [h]
  have h53 : (0 : ℚ) < 5 / 3 := by norm_num
  rw [le_div_iff₀ h53, div_le_iff₀ h53]
  constructor
  · rintro ⟨h1, h2⟩
    constructor
    · have h10 : (10 : ℚ) ≤ 3 * (effective_word_count s : ℚ) := by linarith
      have h10n : (10 : ℕ) ≤ 3 * effective_word_count s := by exact_mod_cast h10
      omega
    · have h35 : (3 : ℚ) * (effective_word_count s : ℚ) ≤ 35 := by linarith
      have h35n : (3 : ℕ) * effective_word_count s ≤ 35 := by exact_mod_cast h35
      omega
  · rintro ⟨h1, h2⟩
    have h1q : (4 : ℚ) ≤ (effective_word_count s : ℚ) := by exact_mod_cast h1
    have h2q : ((effective_word_count s : ℚ)) ≤ 11 := by exact_mod_cast h2
    constructor <;> linarith

/-- Computable restatement of the reading-time filter, used to evaluate the
cascade on concrete sentences. -/
lemma reading_time_eval (s : Sentence) :
    reading_time_filter s = decide (4 ≤ effective_word_count s ∧ effective_word_count s ≤ 11) := by
  rcases hb : reading_time_filter s with _ | _
  · rcases hd : decide (4 ≤ effective_word_count s ∧ effective_word_count s ≤ 11) with _ | _
    · rfl
    · exact absurd ((reading_time_iff s).mpr (of_decide_eq_true hd)) (by rw [hb]; decide)
  · exact (decide_eq_true ((reading_time_iff s).mp hb)).symm

example : reading_time_filter "Hallo der.".data = false := by
  rw [reading_time_eval]; decide
example : reading_time_filter "Dette er en fin dag.".data = true := by
  rw [reading_time_eval]; decide

/-- Every token emitted by the whitespace-split worker is nonempty: a token
is only emitted out of a nonempty accumulator. -/
lemma splitWSAux_ne_nil (s : List Char) :
    ∀ acc t, t ∈ splitWSAux s acc → t ≠ [] := by
  induction s with
  | nil =>
    intro acc t ht
    cases acc with
    | nil => simp [splitWSAux] at ht
    | cons a as =>
      simp [splitWSAux] at ht
      subst ht
      simp
  | cons c rest ih =>
    intro acc t ht
    rw [splitWSAux] at ht
    by_cases hc : pyIsSpace c
    · rw [if_pos hc] at ht
      cases acc with
      | nil => exact ih [] t (by simpa using ht)
      | cons a as =>
        simp only [List.isEmpty_cons, if_neg Bool.false_ne_true, List.mem_cons] at ht
        rcases ht with h1 | h2
        · subst h1; simp
        · exact ih [] t h2
    · rw [if_neg hc] at ht
      exact ih (c :: acc) t ht

/-- Every token produced by the whitespace split is nonempty. -/
lemma pySplitWS_ne_nil (s : List Char) : ∀ t ∈ pySplitWS s, t ≠ [] :=
  fun t ht => splitWSAux_ne_nil s [] t ht

/-- Whether a sentence passes every fast filter. -/
def passFast (s : Sentence) : Bool :=
  (runFastFilters fastFilterList s).isNone

/-- The cascade has nine filters. -/
lemma fastFilterList_length : fastFilterList.length = 9 := rfl

/-- The short-circuit loop returns none exactly when every filter accepts. -/
lemma runFastFilters_none_iff (fs : List (Sentence → Bool)) (s : Sentence) :
    runFastFilters fs s = none ↔ ∀ f ∈ fs, f s = true := by
  induction fs with
  | nil => simp [runFastFilters]
  | cons f fs ih =>
    rw [runFastFilters]
    by_cases h : f s = true
    · rw [if_pos h]
      simp [Option.map_eq_none', ih, h]
    · rw [if_neg h]
      simp only [List.mem_cons]
      constructor
      · intro hsome; cases hsome
      · intro hall; exact absurd (hall f (Or.inl rfl)) h

/-- The short-circuit loop returns i exactly when filter i rejects and every
earlier filter accepts. -/
lemma runFastFilters_some_iff (fs : List (Sentence → Bool)) (s : Sentence)
    (i : ℕ) :
    runFastFilters fs s = some i ↔
      i < fs.length ∧ (fs.getD i (fun _ => true)) s = false ∧
        ∀ m, m < i → (fs.getD m (fun _ => true)) s = true := by
  induction fs generalizing i with
  | nil => simp [runFastFilters]
  | cons f fs ih =>
    rw [runFastFilters]
    by_cases h : f s = true
    · rw [if_pos h]
      cases i with
      | zero =>
        simp only [Option.map_eq_some']
        constructor
        · rintro ⟨a, _, hai⟩; omega
        · rintro ⟨_, hfail, _⟩
          rw [List.getD_cons_zero] at hfail
          exact absurd h (by rw [hfail]; decide)
      | succ i =>
        simp only [Option.map_eq_some']
        constructor
        · rintro ⟨a, ha, hai⟩
          have haeq : a = i := by omega
          rw [haeq] at ha
          rcases (ih i).mp ha with ⟨hlen, hfail, hpass⟩
          refine ⟨by simpa using Nat.succ_lt_succ hlen, by simpa using hfail, ?_⟩
          intro m hm
          cases m with
          | zero => simpa using h
          | succ m => simpa using hpass m (by omega)
        · rintro ⟨hlen, hfail, hpass⟩
          refine ⟨i, (ih i).mpr ⟨by simpa using Nat.lt_of_succ_lt_succ hlen,
            by simpa using hfail, ?_⟩, rfl⟩
          intro m hm
          simpa using hpass (m + 1) (by omega)
    · rw [if_neg h]
      cases i with
      | zero =>
        constructor
        · intro _
          refine ⟨Nat.succ_pos _, ?_, fun m hm => absurd hm (Nat.not_lt_zero m)⟩
          rw [List.getD_cons_zero]
          exact Bool.not_eq_true _ ▸ (by revert h; cases f s <;> simp)
        · intro _; rfl
      | succ i =>
        constructor
        · intro hcon; cases hcon
        · rintro ⟨_, _, hpass⟩
          have h0 := hpass 0 (Nat.succ_pos i)
          rw [List.getD_cons_zero] at h0
          exact absurd h0 h

/-- A rejection index returned by the cascade is below its length. -/
lemma runFastFilters_lt (fs : List (Sentence → Bool)) (s : Sentence) (i : ℕ)
    (h : runFastFilters fs s = some i) : i < fs.length :=
  ((runFastFilters_some_iff fs s i).mp h).1

/-- Reading getD after set at the same in-bounds position yields the new value. -/
lemma getD_set_self (l : List ℕ) (i v : ℕ) (h : i < l.length) :
    (l.set i v).getD i 0 = v := by
  induction l generalizing i with
  | nil => simp at h
  | cons a as ih =>
    cases i with
    | zero => simp
    | succ i => simpa using ih i (by simpa using h)

/-- Reading getD after set at a different position is unchanged. -/
lemma getD_set_ne (l : List ℕ) (i m v : ℕ) (h : i ≠ m) :
    (l.set i v).getD m 0 = l.getD m 0 := by
  induction l generalizing i m with
  | nil => simp
  | cons a as ih =>
    cases i with
    | zero =>
      cases m with
      | zero => exact absurd rfl h
      | succ m => simp
    | succ i =>
      cases m with
      | zero => simp
      | succ m => simpa using ih i m (fun he => h (by rw [he]))

/-- Incrementing one in-bounds counter raises the total by exactly one. -/
lemma sum_set_getD (l : List ℕ) (i : ℕ) (h : i < l.length) :
    (l.set i (l.getD i 0 + 1)).sum = l.sum + 1 := by
  induction l generalizing i with
  | nil => simp at h
  | cons a as ih =>
    cases i with
    | zero => simp [List.sum_cons]; omega
    | succ i =>
      simp only [List.getD_cons_succ]
      rw [show (a :: as).set (i + 1) (as.getD i 0 + 1)
            = a :: as.set i (as.getD i 0 + 1) from rfl]
      rw [List.sum_cons, List.sum_cons, ih i (by simpa using h)]
      omega

/-- The fast pass appends exactly the extracted sentences that pass every
fast filter, in order. -/
lemma foldl_processLine_survivors (lines : List (List Char)) :
    ∀ st : FastResult, (lines.foldl processLine st).survivors
      = st.survivors ++ (extractedSentences lines).filter passFast := by
  induction lines with
  | nil => intro st; simp [extractedSentences]
  | cons line rest ih =>
    intro st
    rw [List.foldl_cons, ih (processLine st line)]
    cases hp : parseLine line with
    | none => simp [processLine, hp, extractedSentences, List.filterMap_cons]
    | some s =>
      cases hr : runFastFilters fastFilterList s with
      | some i =>
        simp [processLine, hp, hr, extractedSentences, List.filterMap_cons,
          List.filter_cons, passFast]
      | none =>
        simp [processLine, hp, hr, extractedSentences, List.filterMap_cons,
          List.filter_cons, passFast]

/-- Each processed line adds its one outcome to the statistics: the counter
total plus the survivor count always equals the processed-line total. -/
lemma foldl_processLine_stats (lines : List (List Char)) :
    ∀ st : FastResult, st.counts.length = 9 →
      (lines.foldl processLine st).counts.length = 9 ∧
      (lines.foldl processLine st).counts.sum
          + (lines.foldl processLine st).survivors.length + st.total_lines
        = st.counts.sum + st.survivors.length
          + (lines.foldl processLine st).total_lines := by
  induction lines with
  | nil => intro st h; exact ⟨h, rfl⟩
  | cons line rest ih =>
    intro st h
    rw [List.foldl_cons]
    have hstep : (processLine st line).counts.length = 9 ∧
        (processLine st line).counts.sum
            + (processLine st line).survivors.length + st.total_lines
          = st.counts.sum + st.survivors.length
            + (processLine st line).total_lines := by
      cases hp : parseLine line with
      | none => simp [processLine, hp, h]
      | some s =>
        cases hr : runFastFilters fastFilterList s with
        | some i =>
          have hi : i < st.counts.length := by
            rw [h]
            simpa using runFastFilters_lt _ _ _ hr
          simp only [processLine, hp, hr]
          refine ⟨by simpa using h, ?_⟩
          rw [sum_set_getD st.counts i hi]
          omega
        | none =>
          simp only [processLine, hp, hr]
          refine ⟨h, ?_⟩
          simp
          omega
    rcases ih (processLine st line) hstep.1 with ⟨ih9, ihe⟩
    exact ⟨ih9, by omega⟩

/-- The fast-pass survivors from the zeroed statistics. -/
lemma fastPass_survivors (lines : List (List Char)) :
    (fastPass lines).survivors = (extractedSentences lines).filter passFast := by
  unfold fastPass
  rw [foldl_processLine_survivors]
  rfl

/-- The nine fast counters plus the survivor count equal total_lines. -/
lemma fastPass_stats (lines : List (List Char)) :
    (fastPass lines).counts.length = 9 ∧
    (fastPass lines).counts.sum + (fastPass lines).survivors.length
      = (fastPass lines).total_lines := by
  have hmain := foldl_processLine_stats lines ⟨[0, 0, 0, 0, 0, 0, 0, 0, 0], [], 0⟩ (by simp)
  refine ⟨hmain.1, ?_⟩
  have he := hmain.2
  simp only [List.sum_cons, List.sum_nil, List.length_nil] at he
  simp only [fastPass]
  omega

/-- The linguistic pass appends the survivors that pass the capability and
counts every other survivor in the proper_noun_filter counter. -/
lemma foldl_lingStep (pn : Sentence → Bool) (l : List Sentence) :
    ∀ acc : List Sentence × ℕ,
      l.foldl (lingStep pn) acc
        = (acc.1 ++ l.filter pn, acc.2 + l.countP (fun s => !pn s)) := by
  induction l with
  | nil => intro acc; simp
  | cons s rest ih =>
    intro acc
    rw [List.foldl_cons, ih]
    unfold lingStep
    by_cases h : pn s = true
    · simp [h, List.filter_cons, List.countP_cons]
    · simp [h, List.filter_cons, List.countP_cons]
      omega

/-- The linguistic pass from the zeroed accumulator. -/
lemma lingPass_eq (pn : Sentence → Bool) (l : List Sentence) :
    lingPass pn l = (l.filter pn, l.countP (fun s => !pn s)) := by
  unfold lingPass
  rw [foldl_lingStep]
  simp

/-- Kept plus rejected sentences account for every linguistic-pass input. -/
lemma filter_length_countP (pn : Sentence → Bool) (l : List Sentence) :
    (l.filter pn).length + l.countP (fun s => !pn s) = l.length := by
  induction l with
  | nil => simp
  | cons s rest ih =>
    by_cases h : pn s = true <;>
      simp [List.filter_cons, List.countP_cons, h] <;> omega

/-- The chunk loop with exhausted fuel is empty. -/
lemma chunkLoop_zero (n : ℕ) (l : List Sentence) : chunkLoop 0 n l = [] := rfl

/-- The chunk loop of the empty list is empty at any fuel. -/
lemma chunkLoop_nil (fuel n : ℕ) : chunkLoop fuel n [] = [] := by
  cases fuel <;> rfl

/-- With positive chunk size and enough fuel, concatenating the chunks in
order restores the list. -/
lemma chunkLoop_join (n : ℕ) (hn : 0 < n) :
    ∀ (fuel : ℕ) (l : List Sentence), l.length ≤ fuel →
      (chunkLoop fuel n l).flatten = l := by
  intro fuel
  induction fuel with
  | zero =>
    intro l hl
    have hl0 : l = [] := List.length_eq_zero.mp (Nat.le_zero.mp hl)
    subst hl0
    rfl
  | succ fuel ih =>
    intro l hl
    cases l with
    | nil => rfl
    | cons x xs =>
      simp only [List.length_cons] at hl
      rw [chunkLoop, List.flatten_cons]
      rw [ih ((x :: xs).drop n)
        (by simp only [List.length_drop, List.length_cons]; omega)]
      exact List.take_append_drop n (x :: xs)

/-- With positive chunk size and enough fuel, the loop produces one chunk
per ceil of length over chunk size. -/
lemma chunkLoop_length (n : ℕ) (hn : 0 < n) :
    ∀ (fuel : ℕ) (l : List Sentence), l.length ≤ fuel →
      (chunkLoop fuel n l).length = (l.length + n - 1) / n := by
  intro fuel
  induction fuel with
  | zero =>
    intro l hl
    have hl0 : l = [] := List.length_eq_zero.mp (Nat.le_zero.mp hl)
    subst hl0
    rw [chunkLoop_zero]
    simp only [List.length_nil, Nat.zero_add]
    rw [Nat.div_eq_of_lt (by omega)]
  | succ fuel ih =>
    intro l hl
    cases l with
    | nil =>
      rw [chunkLoop_nil]
      simp only [List.length_nil, Nat.zero_add]
      rw [Nat.div_eq_of_lt (by omega)]
    | cons x xs =>
      simp only [List.length_cons] at hl
      rw [chunkLoop]
      rw [List.length_cons, ih ((x :: xs).drop n)
        (by simp only [List.length_drop, List.length_cons]; omega)]
      rw [List.length_drop]
      rcases Nat.lt_or_ge n (x :: xs).length with hlt | hge
      · simp only [List.length_cons] at hlt ⊢
        have e1 : xs.length + 1 - n + n - 1 = xs.length + 1 - 1 := by omega
        have e2 : xs.length + 1 + n - 1 = (xs.length + 1 - 1) + n := by omega
        rw [e1, e2, Nat.add_div_right _ hn]
      · simp only [List.length_cons] at hge ⊢
        have e1 : xs.length + 1 - n + n - 1 = n - 1 := by omega
        have e2 : xs.length + 1 + n - 1 = (xs.length + 1 - 1) + n := by omega
        rw [e1, e2, Nat.add_div_right _ hn]
        rw [Nat.div_eq_of_lt (by omega), Nat.div_eq_of_lt (by omega)]

/-- Every chunk the loop produces holds at most n sentences. -/
lemma chunkLoop_le (n : ℕ) :
    ∀ (fuel : ℕ) (l : List Sentence), ∀ c ∈ chunkLoop fuel n l,
      c.length ≤ n := by
  intro fuel
  induction fuel with
  | zero =>
    intro l c hc
    rw [chunkLoop_zero] at hc
    cases hc
  | succ fuel ih =>
    intro l c hc
    cases l with
    | nil =>
      rw [chunkLoop_nil] at hc
      cases hc
    | cons x xs =>
      rw [chunkLoop] at hc
      rcases List.mem_cons.mp hc with h1 | h2
      · subst h1
        exact List.length_take_le n (x :: xs)
      · exact ih _ c h2

/-- Every chunk but the last holds exactly n sentences. -/
lemma chunkLoop_dropLast (n : ℕ) (hn : 0 < n) :
    ∀ (fuel : ℕ) (l : List Sentence), l.length ≤ fuel →
      ∀ c ∈ (chunkLoop fuel n l).dropLast, c.length = n := by
  intro fuel
  induction fuel with
  | zero =>
    intro l hl c hc
    rw [chunkLoop_zero] at hc
    cases hc
  | succ fuel ih =>
    intro l hl c hc
    cases l with
    | nil =>
      rw [chunkLoop_nil] at hc
      cases hc
    | cons x xs =>
      simp only [List.length_cons] at hl
      rw [chunkLoop] at hc
      cases hrest : chunkLoop fuel n ((x :: xs).drop n) with
      | nil =>
        rw [hrest] at hc
        cases hc
      | cons r rs =>
        rw [hrest] at hc
        rw [List.dropLast_cons₂] at hc
        rcases List.mem_cons.mp hc with h1 | h2
        · subst h1
          have hdrop : (x :: xs).drop n ≠ [] := by
            intro hnil
            rw [hnil, chunkLoop_nil] at hrest
            cases hrest
          have hlen : n < (x :: xs).length := by
            by_contra hcon
            exact hdrop (List.drop_eq_nil_of_le (by omega))
          simp only [List.length_cons] at hlen
          simp only [List.length_take, List.length_cons]
          omega
        · have hih := ih ((x :: xs).drop n)
            (by simp only [List.length_drop, List.length_cons]; omega) c
          rw [hrest] at hih
          exact hih h2

/-- Every sentence of every chunk comes from the partitioned list. -/
lemma chunkLoop_subset (n : ℕ) :
    ∀ (fuel : ℕ) (l : List Sentence), ∀ c ∈ chunkLoop fuel n l,
      ∀ s ∈ c, s ∈ l := by
  intro fuel
  induction fuel with
  | zero =>
    intro l c hc
    rw [chunkLoop_zero] at hc
    cases hc
  | succ fuel ih =>
    intro l c hc s hs
    cases l with
    | nil =>
      rw [chunkLoop_nil] at hc
      cases hc
    | cons x xs =>
      rw [chunkLoop] at hc
      rcases List.mem_cons.mp hc with h1 | h2
      · subst h1
        exact List.mem_of_mem_take hs
      · exact List.mem_of_mem_drop (ih _ c h2 s hs)

/-- An in-bounds getD is a member of the list. -/
lemma getD_mem (l : List (Sentence → Bool)) (i : ℕ)
    (d : Sentence → Bool) (h : i < l.length) : l.getD i d ∈ l := by
  induction l generalizing i with
  | nil => simp at h
  | cons f fs ih =>
    cases i with
    | zero => simp
    | succ i =>
      rw [List.getD_cons_succ]
      exact List.mem_cons_of_mem f (ih i (by simpa using h))

/-- The chunks of a run, read off the record. -/
lemma runPipeline_chunks (pn : Sentence → Bool) (cfg : Config)
    (lines : List (List Char)) :
    (runPipeline pn cfg lines).chunks
      = (chunkList cfg.chunk_size (runPipeline pn cfg lines).final).map
          (writeChunk cfg.single_sentences) := rfl

/-- The final accepted sequence of a run, read off the record. -/
lemma runPipeline_final (pn : Sentence → Bool) (cfg : Config)
    (lines : List (List Char)) :
    (runPipeline pn cfg lines).final
      = (lingPass pn (fastPass lines).survivors).1 := rfl

/-- Scenario A input line of the specification. -/
def scenarioALine : List Char := "1\tHallo der.\n".data

/-- Scenario A sentence. -/
def scenarioASentence : Sentence := "Hallo der.".data

/-- An input line whose sentence passes all filters. -/
def goodLine : List Char := "1\tDette er en fin dag.\n".data

/-- The sentence of goodLine. -/
def goodSentence : Sentence := "Dette er en fin dag.".data

/-- Parsing Scenario A extracts its sentence. -/
lemma scenarioA_parse : parseLine scenarioALine = some scenarioASentence := by
  decide

/-- The Scenario A sentence is two effective words long, read in 1.2
seconds, and so rejected by the reading-time filter. -/
lemma scenarioA_reading : reading_time_filter scenarioASentence = false := by
  rw [reading_time_eval]
  decide

/-- The fast cascade rejects the Scenario A sentence at index 6, the
reading-time filter. -/
lemma scenarioA_fast :
    runFastFilters fastFilterList scenarioASentence = some 6 := by
  have h0 : starts_with_capital scenarioASentence = true := by decide
  have h1 : has_no_parentheses scenarioASentence = true := by decide
  have h2 : ends_with_punctuation scenarioASentence = true := by decide
  have h3 : only_one_sentence scenarioASentence = true := by decide
  have h4 : has_no_numbers scenarioASentence = true := by decide
  have h5 : no_special_characters scenarioASentence = true := by decide
  simp [fastFilterList, runFastFilters, h0, h1, h2, h3, h4, h5,
    scenarioA_reading]

/-- The goodLine sentence passes the whole fast cascade. -/
lemma good_fast : runFastFilters fastFilterList goodSentence = none := by
  have h0 : starts_with_capital goodSentence = true := by decide
  have h1 : has_no_parentheses goodSentence = true := by decide
  have h2 : ends_with_punctuation goodSentence = true := by decide
  have h3 : only_one_sentence goodSentence = true := by decide
  have h4 : has_no_numbers goodSentence = true := by decide
  have h5 : no_special_characters goodSentence = true := by decide
  have h6 : reading_time_filter goodSentence = true := by
    rw [reading_time_eval]
    decide
  have h7 : max_word_count_filter goodSentence = true := by decide
  have h8 : (basic_proper_noun_filter goodSentence == some true) = true := by
    decide
  simp [fastFilterList, runFastFilters, h0, h1, h2, h3, h4, h5, h6, h7, h8]

/-- The fast pass on Scenario A alone leaves no survivor. -/
lemma scenarioA_survivors : (fastPass [scenarioALine]).survivors = [] := by
  rw [fastPass_survivors]
  have he : extractedSentences [scenarioALine] = [scenarioASentence] := by
    decide
  rw [he]
  simp [List.filter_cons, passFast, scenarioA_fast]

/-- The fast pass on goodLine alone keeps its sentence. -/
lemma good_survivors : (fastPass [goodLine]).survivors = [goodSentence] := by
  rw [fastPass_survivors]
  have he : extractedSentences [goodLine] = [goodSentence] := by decide
  rw [he]
  simp [List.filter_cons, passFast, good_fast]

/-- Scenario A produces no output chunk at all: its sentence dies in the
fast pass at the reading-time filter. -/
lemma scenarioA_chunks :
    (runPipeline (fun _ => true) ⟨1000000, false⟩ [scenarioALine]).chunks
      = [] := by
  rw [runPipeline_chunks, runPipeline_final, scenarioA_survivors]
  rfl

/-- The input goodLine produces exactly one chunk with one full-mode line. -/
lemma good_chunks :
    (runPipeline (fun _ => true) ⟨2, false⟩ [goodLine]).chunks
      = [[fullModeLine goodSentence]] := by
  rw [runPipeline_chunks, runPipeline_final, good_survivors]
  rfl

/-- The input goodLine's final accepted sequence is its sentence. -/
lemma good_final :
    (runPipeline (fun _ => true) ⟨2, false⟩ [goodLine]).final
      = [goodSentence] := by
  rw [runPipeline_final, good_survivors]
  rfl

/-- The constant tail every full-mode line carries after its sentence. -/
def fullTail : List Char :=
  "\t".data ++ source_url.data ++ "\t".data ++ additional_rationale.data
    ++ "\t".data ++ "".data ++ "\t".data ++ domain.data ++ "\n".data

/-- A full-mode line is its sentence followed by the constant tail. -/
lemma fullModeLine_eq (s : Sentence) : fullModeLine s = s ++ fullTail := by
  simp [fullModeLine, fullTail]

/-- The chunk count of a run, read off the record. -/
lemma runPipeline_chunk_count (pn : Sentence → Bool) (cfg : Config)
    (lines : List (List Char)) :
    (runPipeline pn cfg lines).chunk_count
      = (chunkList cfg.chunk_size (runPipeline pn cfg lines).final).length := rfl

/-- The final count of a run, read off the record. -/
lemma runPipeline_total_final (pn : Sentence → Bool) (cfg : Config)
    (lines : List (List Char)) :
    (runPipeline pn cfg lines).total_final
      = (runPipeline pn cfg lines).final.length := rfl

/-- The whitespace split of an all-whitespace string is empty. -/
lemma splitWS_space (s : List Char) (h : ∀ c ∈ s, pyIsSpace c = true) :
    pySplitWS s = [] := by
  unfold pySplitWS
  induction s with
  | nil => rfl
  | cons c rest ih =>
    rw [splitWSAux, if_pos (h c (List.mem_cons_self c rest))]
    simp only [List.isEmpty_nil, if_pos rfl]
    exact ih (fun d hd => h d (List.mem_cons_of_mem c hd))

/-- A whitespace character is not a digit. -/
lemma space_not_digit (c : Char) (h : pyIsSpace c = true) :
    pyIsDigit c = false := by
  simp only [pyIsSpace, Bool.or_eq_true, decide_eq_true_eq] at h
  rcases h with ((((h | h) | h) | h) | h) | h <;> subst h <;> decide

/-- A whitespace character is in the allow-list. -/
lemma space_allowed (c : Char) (h : pyIsSpace c = true) :
    allowedChar c = true := by
  simp [allowedChar, h]

/-- A whitespace character is not a parenthesis. -/
lemma space_not_paren (c : Char) (h : pyIsSpace c = true) :
    c ≠ '(' ∧ c ≠ ')' := by
  simp only [pyIsSpace, Bool.or_eq_true, decide_eq_true_eq] at h
  rcases h with ((((h | h) | h) | h) | h) | h <;> subst h <;>
    exact ⟨by decide, by decide⟩

/-- Dropping leading whitespace of an all-whitespace string leaves nothing. -/
lemma dropWhile_space (s : List Char) (h : ∀ c ∈ s, pyIsSpace c = true) :
    s.dropWhile pyIsSpace = [] := by
  induction s with
  | nil => rfl
  | cons c rest ih =>
    rw [List.dropWhile_cons, if_pos (h c (List.mem_cons_self c rest))]
    exact ih (fun d hd => h d (List.mem_cons_of_mem c hd))

/-- The loop body over well-formed tokens returns the conjunction over the
tokens of not starting uppercase. -/
lemma checkTailWords_eq (ws : List (List Char)) (h : ∀ t ∈ ws, t ≠ []) :
    checkTailWords ws = some (ws.all (fun w => !startsUpper w)) := by
  induction ws with
  | nil => rfl
  | cons w rest ih =>
    cases w with
    | nil => exact absurd rfl (h [] (List.mem_cons_self _ _))
    | cons c cs =>
      rw [checkTailWords]
      by_cases hc : pyIsUpper c = true
      · simp [hc, List.all_cons, startsUpper]
      · have hc' : pyIsUpper c = false := by revert hc; cases pyIsUpper c <;> simp
        rw [if_neg (by simp [hc']),
          ih (fun t ht => h t (List.mem_cons_of_mem _ ht))]
        simp [List.all_cons, startsUpper, hc']

/-- The filter accessor unfolded. -/
lemma fastFilterAt_eq (i : ℕ) :
    fastFilterAt i = fastFilterList.getD i (fun _ => true) := rfl

/-! ### Claim theorems. -/

/-- Claim C1: a sentence that fails two or more fast filters is charged
exactly one rejection, attributed to the earliest filter in cascade order
that rejects it; all the other counters, and the survivor list, are
unchanged by it. -/
theorem fast_cascade_single_attribution (st : FastResult) (line : List Char)
    (s : Sentence) (i j : ℕ)
    (hcl : st.counts.length = 9)
    (hs : parseLine line = some s)
    (hi : i < 9) (hj : j < 9) (hij : i ≠ j)
    (hfi : fastFilterAt i s = false) (hfj : fastFilterAt j s = false) :
    ∃ k, k < 9 ∧ runFastFilters fastFilterList s = some k ∧
      fastFilterAt k s = false ∧ (∀ m, m < k → fastFilterAt m s = true) ∧
      k ≤ i ∧ k ≤ j ∧
      (processLine st line).counts.getD k 0 = st.counts.getD k 0 + 1 ∧
      (∀ m, m ≠ k →
        (processLine st line).counts.getD m 0 = st.counts.getD m 0) ∧
      (processLine st line).counts.sum = st.counts.sum + 1 ∧
      (processLine st line).survivors = st.survivors ∧
      (processLine st line).total_lines = st.total_lines + 1 := by
  rw [fastFilterAt_eq] at hfi hfj
  cases hr : runFastFilters fastFilterList s with
  | none =>
    exfalso
    have hall := (runFastFilters_none_iff fastFilterList s).mp hr
    have hmem : fastFilterList.getD i (fun _ => true) ∈ fastFilterList :=
      getD_mem _ _ _ (by rw [fastFilterList_length]; exact hi)
    have hpass := hall _ hmem
    rw [hfi] at hpass
    cases hpass
  | some k =>
    rcases (runFastFilters_some_iff _ _ k).mp hr with ⟨hk9, hkfail, hkpass⟩
    rw [fastFilterList_length] at hk9
    have hki : k ≤ i := by
      by_contra hcon
      have hp := hkpass i (by omega)
      rw [hfi] at hp
      cases hp
    have hkj : k ≤ j := by
      by_contra hcon
      have hp := hkpass j (by omega)
      rw [hfj] at hp
      cases hp
    have hklt : k < st.counts.length := by rw [hcl]; exact hk9
    have hpc : processLine st line =
        { st with total_lines := st.total_lines + 1,
                  counts := st.counts.set k (st.counts.getD k 0 + 1) } := by
      simp [processLine, hs, hr]
    refine ⟨k, hk9, rfl, ?_, ?_, hki, hkj, ?_, ?_, ?_, ?_, ?_⟩
    · rw [fastFilterAt_eq]; exact hkfail
    · intro m hm
      rw [fastFilterAt_eq]
      exact hkpass m hm
    · rw [hpc]
      exact getD_set_self st.counts k _ hklt
    · intro m hm
      rw [hpc]
      exact getD_set_ne st.counts k m _ (fun he => hm he.symm)
    · rw [hpc]
      exact sum_set_getD st.counts k hklt
    · rw [hpc]
    · rw [hpc]

/-- Claim C1 witness: the sentence of the line 1 tab hei (hei fails both
the capitalization filter and the parenthesis filter. -/
theorem fast_cascade_single_attribution_witness :
    (⟨[0, 0, 0, 0, 0, 0, 0, 0, 0], [], 0⟩ : FastResult).counts.length = 9 ∧
    parseLine "1\thei (hei".data = some "hei (hei".data ∧
    (0 : ℕ) < 9 ∧ (1 : ℕ) < 9 ∧ (0 : ℕ) ≠ 1 ∧
    fastFilterAt 0 "hei (hei".data = false ∧
    fastFilterAt 1 "hei (hei".data = false ∧
    (∃ k, k < 9 ∧
      runFastFilters fastFilterList "hei (hei".data = some k ∧
      fastFilterAt k "hei (hei".data = false ∧
      (∀ m, m < k → fastFilterAt m "hei (hei".data = true) ∧
      k ≤ 0 ∧ k ≤ 1 ∧
      (processLine ⟨[0, 0, 0, 0, 0, 0, 0, 0, 0], [], 0⟩ "1\thei (hei".data).counts.getD k 0
        = (⟨[0, 0, 0, 0, 0, 0, 0, 0, 0], [], 0⟩ : FastResult).counts.getD k 0 + 1 ∧
      (∀ m, m ≠ k →
        (processLine ⟨[0, 0, 0, 0, 0, 0, 0, 0, 0], [], 0⟩ "1\thei (hei".data).counts.getD m 0
          = (⟨[0, 0, 0, 0, 0, 0, 0, 0, 0], [], 0⟩ : FastResult).counts.getD m 0) ∧
      (processLine ⟨[0, 0, 0, 0, 0, 0, 0, 0, 0], [], 0⟩ "1\thei (hei".data).counts.sum
        = (⟨[0, 0, 0, 0, 0, 0, 0, 0, 0], [], 0⟩ : FastResult).counts.sum + 1 ∧
      (processLine ⟨[0, 0, 0, 0, 0, 0, 0, 0, 0], [], 0⟩ "1\thei (hei".data).survivors
        = (⟨[0, 0, 0, 0, 0, 0, 0, 0, 0], [], 0⟩ : FastResult).survivors ∧
      (processLine ⟨[0, 0, 0, 0, 0, 0, 0, 0, 0], [], 0⟩ "1\thei (hei".data).total_lines
        = (⟨[0, 0, 0, 0, 0, 0, 0, 0, 0], [], 0⟩ : FastResult).total_lines + 1) :=
  ⟨by decide, by decide, by decide, by decide, by decide, by decide, by decide,
    fast_cascade_single_attribution ⟨[0, 0, 0, 0, 0, 0, 0, 0, 0], [], 0⟩
      "1\thei (hei".data "hei (hei".data 0 1 (by decide) (by decide)
      (by decide) (by decide) (by decide) (by decide) (by decide)⟩

/-- Claim C6: a blank line, or a line with fewer than two tab-delimited
columns, leaves the whole fast-pass state unchanged (no total_lines, no
counter, no survivor); a line with at least two columns is not blank after
stripping and increments total_lines by exactly one. -/
theorem fast_pass_line_admission (st : FastResult) (line : List Char) :
    ((pyStrip line).isEmpty = true ∨ (splitTab (pyStrip line)).length < 2 →
      processLine st line = st) ∧
    (2 ≤ (splitTab (pyStrip line)).length →
      (pyStrip line).isEmpty = false ∧
      (processLine st line).total_lines = st.total_lines + 1) := by
  constructor
  · intro h
    have hn : parseLine line = none := by
      unfold parseLine
      rcases h with h1 | h2
      · rw [if_pos h1]
      · by_cases h1 : (pyStrip line).isEmpty = true
        · rw [if_pos h1]
        · rw [if_neg h1, if_pos h2]
    simp [processLine, hn]
  · intro h
    have hne : (pyStrip line).isEmpty = false := by
      by_contra hcon
      have ht : (pyStrip line).isEmpty = true := by
        revert hcon; cases (pyStrip line).isEmpty <;> simp
      have hnil : pyStrip line = [] := by
        revert ht; cases pyStrip line <;> simp
      rw [hnil] at h
      simp [splitTab] at h
    have hsome0 : parseLine line
        = some (pyStrip ((splitTab (pyStrip line)).getD 1 [])) := by
      unfold parseLine
      rw [if_neg (by simp [hne]), if_neg (by omega)]
    obtain ⟨s2, hsome⟩ : ∃ s2, parseLine line = some s2 := ⟨_, hsome0⟩
    refine ⟨hne, ?_⟩
    cases hr : runFastFilters fastFilterList s2 with
    | some k => simp [processLine, hsome, hr]
    | none => simp [processLine, hsome, hr]

/-- Claim C6 witness: a one-column line is skipped whole; a two-column line
is counted once. -/
theorem fast_pass_line_admission_witness :
    processLine ⟨[0, 0, 0, 0, 0, 0, 0, 0, 0], [], 0⟩ "no tabs here".data
      = ⟨[0, 0, 0, 0, 0, 0, 0, 0, 0], [], 0⟩ ∧
    ((pyStrip "1\tabc".data).isEmpty = false ∧
      (processLine ⟨[0, 0, 0, 0, 0, 0, 0, 0, 0], [], 0⟩ "1\tabc".data).total_lines
        = (⟨[0, 0, 0, 0, 0, 0, 0, 0, 0], [], 0⟩ : FastResult).total_lines + 1) :=
  ⟨(fast_pass_line_admission _ _).1 (by decide),
    (fast_pass_line_admission _ _).2 (by decide)⟩

/-- Claim C2: for every final accepted sequence and positive chunk_size the
writer produces exactly ceil(total_final / chunk_size) chunks; each chunk
holds at most chunk_size sentences, every chunk but the last exactly
chunk_size, and concatenating the chunks in order reproduces the final
sequence with nothing dropped or duplicated; the run's chunk_count and
chunk file count agree with it. -/
theorem chunked_writer_partition (n : ℕ) (l : List Sentence) (hn : 0 < n) :
    (chunkList n l).length = (l.length + n - 1) / n ∧
    (chunkList n l).flatten = l ∧
    (∀ c ∈ chunkList n l, c.length ≤ n) ∧
    (∀ c ∈ (chunkList n l).dropLast, c.length = n) ∧
    (∀ (pn : Sentence → Bool) (single : Bool) (lines : List (List Char)),
      (runPipeline pn ⟨n, single⟩ lines).chunk_count
          = ((runPipeline pn ⟨n, single⟩ lines).total_final + n - 1) / n ∧
      (runPipeline pn ⟨n, single⟩ lines).chunks.length
          = (runPipeline pn ⟨n, single⟩ lines).chunk_count) := by
  refine ⟨chunkLoop_length n hn l.length l le_rfl,
    chunkLoop_join n hn l.length l le_rfl,
    fun c hc => chunkLoop_le n l.length l c hc,
    fun c hc => chunkLoop_dropLast n hn l.length l le_rfl c hc,
    fun pn single lines => ⟨?_, ?_⟩⟩
  · rw [runPipeline_chunk_count, runPipeline_total_final]
    exact chunkLoop_length n hn _ _ le_rfl
  · rw [runPipeline_chunks, List.length_map, runPipeline_chunk_count]

/-- Claim C2 witness: five sentences at chunk_size 2. -/
theorem chunked_writer_partition_witness :
    (0 : ℕ) < 2 ∧
    ((chunkList 2 ["a".data, "b".data, "c".data, "d".data, "e".data]).length
        = (["a".data, "b".data, "c".data, "d".data, "e".data].length + 2 - 1) / 2 ∧
      (chunkList 2 ["a".data, "b".data, "c".data, "d".data, "e".data]).flatten
        = ["a".data, "b".data, "c".data, "d".data, "e".data] ∧
      (∀ c ∈ chunkList 2 ["a".data, "b".data, "c".data, "d".data, "e".data],
        c.length ≤ 2) ∧
      (∀ c ∈ (chunkList 2 ["a".data, "b".data, "c".data, "d".data, "e".data]).dropLast,
        c.length = 2) ∧
      (∀ (pn : Sentence → Bool) (single : Bool) (lines : List (List Char)),
        (runPipeline pn ⟨2, single⟩ lines).chunk_count
            = ((runPipeline pn ⟨2, single⟩ lines).total_final + 2 - 1) / 2 ∧
        (runPipeline pn ⟨2, single⟩ lines).chunks.length
            = (runPipeline pn ⟨2, single⟩ lines).chunk_count)) :=
  ⟨by decide, chunked_writer_partition 2
    ["a".data, "b".data, "c".data, "d".data, "e".data] (by decide)⟩

/-- Claim C3: the final accepted sequence is a subsequence, in original
relative order, of the sentences extracted from the input records: both
passes only remove sentences, never reorder, insert or duplicate. -/
theorem order_preserved (pn : Sentence → Bool) (cfg : Config)
    (lines : List (List Char)) :
    (runPipeline pn cfg lines).final.Sublist (extractedSentences lines) := by
  have h1 : (runPipeline pn cfg lines).final
      = ((extractedSentences lines).filter passFast).filter pn := by
    rw [runPipeline_final, fastPass_survivors, lingPass_eq]
  rw [h1]
  exact (List.filter_sublist _).trans (List.filter_sublist _)

/-- Claim C8: the pipeline is a pure function of the tagging capability,
the configuration and the input lines, so identical inputs give identical
statistics, final sequences and chunk files. -/
theorem pipeline_deterministic (pn1 pn2 : Sentence → Bool)
    (cfg1 cfg2 : Config) (l1 l2 : List (List Char))
    (hpn : pn1 = pn2) (hcfg : cfg1 = cfg2) (hl : l1 = l2) :
    runPipeline pn1 cfg1 l1 = runPipeline pn2 cfg2 l2 := by
  subst hpn
  subst hcfg
  subst hl
  rfl

/-- Claim C8 witness: two identical runs on goodLine coincide. -/
theorem pipeline_deterministic_witness :
    ((fun _ => true) : Sentence → Bool) = (fun _ => true) ∧
    (⟨2, false⟩ : Config) = ⟨2, false⟩ ∧
    [goodLine] = [goodLine] ∧
    runPipeline (fun _ => true) ⟨2, false⟩ [goodLine]
      = runPipeline (fun _ => true) ⟨2, false⟩ [goodLine] :=
  ⟨rfl, rfl, rfl,
    pipeline_deterministic (fun _ => true) (fun _ => true) ⟨2, false⟩
      ⟨2, false⟩ [goodLine] [goodLine] rfl rfl rfl⟩

/-- Claim C9: after both passes, total_lines equals the sum of the nine
fast-filter rejection counters plus the proper_noun_filter counter plus
total_final: every counted record has exactly one outcome. -/
theorem record_outcome_conservation (pn : Sentence → Bool) (cfg : Config)
    (lines : List (List Char)) :
    (runPipeline pn cfg lines).total_lines
      = (runPipeline pn cfg lines).counts.sum
        + (runPipeline pn cfg lines).pn_count
        + (runPipeline pn cfg lines).total_final := by
  have h1 : (runPipeline pn cfg lines).counts = (fastPass lines).counts := rfl
  have h2 : (runPipeline pn cfg lines).total_lines
      = (fastPass lines).total_lines := rfl
  have h3 : (runPipeline pn cfg lines).pn_count
      = (fastPass lines).survivors.countP (fun s => !pn s) := by
    show (lingPass pn (fastPass lines).survivors).2 = _
    rw [lingPass_eq]
  have h4 : (runPipeline pn cfg lines).total_final
      = ((fastPass lines).survivors.filter pn).length := by
    show (lingPass pn (fastPass lines).survivors).1.length = _
    rw [lingPass_eq]
  rw [h1, h2, h3, h4]
  have h5 := (fastPass_stats lines).2
  have h6 := filter_length_countP pn (fastPass lines).survivors
  omega

/-- Claim C4 (amended): on an empty or whitespace-only sentence the four
filters that inspect stripped content or reading time reject, while
has_no_parentheses, has_no_numbers, no_special_characters,
max_word_count_filter and basic_proper_noun_filter accept. -/
theorem whitespace_only_filter_behaviour (s : Sentence)
    (h : s.all pyIsSpace = true) :
    starts_with_capital s = false ∧ ends_with_punctuation s = false ∧
    only_one_sentence s = false ∧ reading_time_filter s = false ∧
    has_no_parentheses s = true ∧ has_no_numbers s = true ∧
    no_special_characters s = true ∧ max_word_count_filter s = true ∧
    basic_proper_noun_filter s = some true := by
  have hall : ∀ c ∈ s, pyIsSpace c = true := List.all_eq_true.mp h
  have hls : pyLStrip s = [] := dropWhile_space s hall
  have hrs : pyRStrip s = [] := by
    unfold pyRStrip
    rw [dropWhile_space s.reverse (fun c hc => hall c (List.mem_reverse.mp hc))]
    rfl
  have hsw : pySplitWS s = [] := splitWS_space s hall
  refine ⟨?_, ?_, ?_, ?_, ?_, ?_, ?_, ?_, ?_⟩
  · unfold starts_with_capital
    rw [hls]
  · unfold ends_with_punctuation
    rw [hrs]
    rfl
  · unfold only_one_sentence
    rw [hrs]
    rfl
  · have hewc : effective_word_count s = 0 := by
      unfold effective_word_count
      rw [hsw]
      rfl
    rcases hb : reading_time_filter s with _ | _
    · rfl
    · have hc := (reading_time_iff s).mp hb
      rw [hewc] at hc
      omega
  · unfold has_no_parentheses
    have hl : s.contains '(' = false := by
      rcases hcl : s.contains '(' with _ | _
      · rfl
      · have hm : '(' ∈ s := List.mem_of_elem_eq_true hcl
        have := hall '(' hm
        cases this
    have hr : s.contains ')' = false := by
      rcases hcr : s.contains ')' with _ | _
      · rfl
      · have hm : ')' ∈ s := List.mem_of_elem_eq_true hcr
        have := hall ')' hm
        cases this
    rw [hl, hr]
    rfl
  · unfold has_no_numbers
    rw [List.all_eq_true]
    intro c hc
    rw [space_not_digit c (hall c hc)]
    rfl
  · unfold no_special_characters
    rw [List.all_eq_true]
    intro c hc
    rw [space_allowed c (hall c hc)]
  · unfold max_word_count_filter
    rw [hsw]
    rfl
  · unfold basic_proper_noun_filter
    rw [hsw]

/-- Claim C4 witness: a tab-and-space sentence. -/
theorem whitespace_only_filter_behaviour_witness :
    (['\t', ' '].all pyIsSpace = true) ∧
    (starts_with_capital ['\t', ' '] = false ∧
      ends_with_punctuation ['\t', ' '] = false ∧
      only_one_sentence ['\t', ' '] = false ∧
      reading_time_filter ['\t', ' '] = false ∧
      has_no_parentheses ['\t', ' '] = true ∧
      has_no_numbers ['\t', ' '] = true ∧
      no_special_characters ['\t', ' '] = true ∧
      max_word_count_filter ['\t', ' '] = true ∧
      basic_proper_noun_filter ['\t', ' '] = some true) :=
  ⟨by decide, whitespace_only_filter_behaviour ['\t', ' '] (by decide)⟩

/-- Claim C4 counterexample: five of the nine fast filters accept the empty
string rather than rejecting it. -/
theorem empty_string_accepted_by_five_filters :
    has_no_parentheses [] = true ∧ has_no_numbers [] = true ∧
    no_special_characters [] = true ∧ max_word_count_filter [] = true ∧
    basic_proper_noun_filter [] = some true :=
  ⟨by decide, by decide, by decide, by decide, rfl⟩

/-- Claim C5: the reading-time filter accepts exactly when the effective
word count divided by 100 words per minute lies in the closed interval of
2 to 7 seconds, which over the naturals is an effective word count between
4 and 11 inclusive; a four-effective-word sentence (2.4 seconds, outside
the 7 to 15 second band of the docstring) is accepted. -/
theorem reading_time_enforced_band (s : Sentence) :
    (reading_time_filter s = true ↔
      2 ≤ (effective_word_count s : ℚ) / (100 / 60) ∧
        (effective_word_count s : ℚ) / (100 / 60) ≤ 7) ∧
    (reading_time_filter s = true ↔
      4 ≤ effective_word_count s ∧ effective_word_count s ≤ 11) ∧
    reading_time_filter "Hei på deg nå.".data = true := by
  refine ⟨?_, reading_time_iff s, ?_⟩
  · unfold reading_time_filter
    rw [decide_eq_true_eq]
  · rw [reading_time_eval]
    decide

/-- Claim C10: basic_proper_noun_filter never hits its error case on any
input, because whitespace splitting only yields nonempty tokens; its value
is acceptance exactly of the sentences in which no token after the first
begins with an uppercase character. -/
theorem basic_proper_noun_filter_total (s : Sentence) :
    basic_proper_noun_filter s
      = some ((pySplitWS s).tail.all (fun w => !startsUpper w)) := by
  unfold basic_proper_noun_filter
  cases h : pySplitWS s with
  | nil => rfl
  | cons w ws =>
    rw [List.tail_cons]
    exact checkTailWords_eq ws
      (fun t ht => pySplitWS_ne_nil s t (h ▸ List.mem_cons_of_mem w ht))

set_option maxRecDepth 8000 in
/-- Claim C7 (amended): in full mode every output line is its sentence
followed by the one constant tail of four tab-separated fields (source URL,
rationale, empty quality-assurance field, domain label), identical on every
line; but the Scenario A input produces no chunk at all, because its
sentence is rejected by the reading-time filter, and a full-mode line for
that sentence would end in tab tab General with no space before the domain
label. -/
theorem full_mode_line_format :
    (∀ (pn : Sentence → Bool) (n : ℕ) (lines : List (List Char))
        (cl : List (List Char)),
      cl ∈ (runPipeline pn ⟨n, false⟩ lines).chunks →
      ∀ l ∈ cl, ∃ s ∈ (runPipeline pn ⟨n, false⟩ lines).final,
        l = s ++ fullTail) ∧
    (runPipeline (fun _ => true) ⟨1000000, false⟩ [scenarioALine]).chunks
      = [] ∧
    fullModeLine scenarioASentence
      = ("Hallo der.\t" ++ source_url ++ "\t" ++ additional_rationale
          ++ "\t\tGeneral\n").data := by
  refine ⟨?_, scenarioA_chunks, by decide⟩
  intro pn n lines cl hcl l hl
  rw [runPipeline_chunks] at hcl
  rcases List.mem_map.mp hcl with ⟨c, hc, hcw⟩
  rw [show writeChunk (⟨n, false⟩ : Config).single_sentences c
      = c.map fullModeLine from rfl] at hcw
  rw [← hcw] at hl
  rcases List.mem_map.mp hl with ⟨s, hsc, hsl⟩
  refine ⟨s, ?_, by rw [← hsl, fullModeLine_eq]⟩
  rw [show chunkList (⟨n, false⟩ : Config).chunk_size
        (runPipeline pn ⟨n, false⟩ lines).final
      = chunkLoop (runPipeline pn ⟨n, false⟩ lines).final.length n
          (runPipeline pn ⟨n, false⟩ lines).final from rfl] at hc
  exact chunkLoop_subset n _ _ c hc s hsc

/-- Claim C7 witness: the one full-mode line goodLine produces is its
sentence followed by the constant tail. -/
theorem full_mode_line_format_witness :
    ∃ s ∈ (runPipeline (fun _ => true) ⟨2, false⟩ [goodLine]).final,
      fullModeLine goodSentence = s ++ fullTail :=
  full_mode_line_format.1 (fun _ => true) 2 [goodLine]
    [fullModeLine goodSentence]
    (by rw [good_chunks]; exact List.mem_singleton_self _)
    (fullModeLine goodSentence) (List.mem_singleton_self _)

set_option maxRecDepth 8000 in
/-- Claim C7 counterexample: on the Scenario A input the pipeline emits no
chunk, so the sentence does not appear in chunk 1, and the full-mode line
for the Scenario A sentence differs from the line the claim spells out,
which puts a space between the empty field's tab and the domain label. -/
theorem scenarioA_not_as_claimed :
    (runPipeline (fun _ => true) ⟨1000000, false⟩ [scenarioALine]).chunks
      = [] ∧
    fullModeLine scenarioASentence
      ≠ ("Hallo der.\t" ++ source_url ++ "\t" ++ additional_rationale
          ++ "\t\t General\n").data :=
  ⟨scenarioA_chunks, by decide⟩
